import Mathlib

/-!
# Verification of the tekken-rs tokenizer core

A shallow embedding of the tekken-rs multimodal tokenizer (files
`src/tekkenizer.rs`, `src/audio.rs`, `src/config.rs`, `src/special_tokens.rs`,
`src/errors.rs`), together with proofs about the claims of the specification.

Modelling conventions:
* Rust `String` values and byte vectors are both modelled as `List Nat`
  (the UTF-8 bytes); token ids and ranks (`u32`/`usize`) are `Nat`
  (real vocabularies are far below any wrap-around, which is not modelled).
* `f64` values that the code uses for exact-looking arithmetic
  (`frame_rate`, `chunk_length_s`, and the hop/token count computations)
  are modelled as `ℚ`; the mel-scale functions, which use `ln`/`exp`,
  are modelled over `ℝ`.
* The external BPE engine (`tiktoken_rs::CoreBPE`) is an out-of-scope
  collaborator: operations that call it take the engine's behaviour as an
  explicit function argument (`bpe_encode` / `bpe_decode`).
* Rust panics (index out of bounds, division by zero) are surfaced as the
  distinguished error value `TokenizerError.panic`.
-/

deriving instance DecidableEq for Except

namespace Tekken

/-- Errors, mirroring `TokenizerError` in `src/errors.rs` (the message payloads are
dropped).  The extra constructor `panic` does not exist in the source: it models a
Rust panic (e.g. the division by zero in `Audio::pad` when `chunk_frames` is `0`),
which aborts execution rather than returning a `TokenizerError`. -/
inductive TokenizerError where
  | io
  | json
  | base64
  | tokenizers
  | audio
  | invalidConfig
  | tokenNotFound
  | specialTokenPolicy
  | unsupportedFormat
  | panic
deriving DecidableEq

/-- `SpecialTokenPolicy` from `src/special_tokens.rs`. -/
inductive SpecialTokenPolicy where
  | ignore
  | keep
  | raise
deriving DecidableEq

/-- `SpecialTokenInfo` from `src/special_tokens.rs`; `token_str` holds the UTF-8 bytes. -/
structure SpecialTokenInfo where
  rank : Nat
  token_str : List Nat
  is_control : Bool
deriving DecidableEq

/-- `TokenInfo` from `src/config.rs`.  In the source `token_bytes` is a base64
string that construction decodes; here it holds the already-decoded bytes
(base64 decoding is an external library call and is abstracted away). -/
structure TokenInfo where
  rank : Nat
  token_bytes : List Nat
  token_str : Option (List Nat)
deriving DecidableEq

/-- `TokenizerVersion` from `src/config.rs`. -/
inductive TokenizerVersion where
  | v3
  | v7
  | v11
  | v13
deriving DecidableEq, Inhabited

/-! ## Audio configuration and padding (`src/audio.rs`) -/

/-- `AudioSpectrogramConfig` from `src/audio.rs`. -/
structure AudioSpectrogramConfig where
  num_mel_bins : Nat
  hop_length : Nat
  window_size : Nat
deriving DecidableEq

/-- `AudioSpectrogramConfig::new` (validation). -/
def AudioSpectrogramConfig.new (num_mel_bins hop_length window_size : Nat) :
    Except TokenizerError AudioSpectrogramConfig :=
  if num_mel_bins = 0 then .error .invalidConfig
  else if hop_length = 0 then .error .invalidConfig
  else if window_size = 0 then .error .invalidConfig
  else .ok ⟨num_mel_bins, hop_length, window_size⟩

/-- `AudioConfig` from `src/audio.rs`; the `f64` fields are modelled as `ℚ`. -/
structure AudioConfig where
  sampling_rate : Nat
  frame_rate : ℚ
  audio_encoding_config : AudioSpectrogramConfig
  chunk_length_s : Option ℚ
deriving DecidableEq

/-- `AudioConfig::new` (validation). -/
def AudioConfig.new (sampling_rate : Nat) (frame_rate : ℚ)
    (encoding_config : AudioSpectrogramConfig) (chunk_length_s : Option ℚ) :
    Except TokenizerError AudioConfig :=
  if sampling_rate = 0 then .error .invalidConfig
  else if frame_rate ≤ 0 then .error .invalidConfig
  else
    match chunk_length_s with
    | some chunk_length =>
      if chunk_length ≤ 0 then .error .invalidConfig
      else .ok ⟨sampling_rate, frame_rate, encoding_config, some chunk_length⟩
    | none => .ok ⟨sampling_rate, frame_rate, encoding_config, none⟩

/-- `AudioConfig::chunk_frames`: `(chunk_length * sampling_rate as f64) as usize`.
The `as usize` cast truncates toward zero and saturates at `0` for negative
values, which for this expression is `Int.toNat ∘ Int.floor`. -/
def AudioConfig.chunk_frames (c : AudioConfig) : Except TokenizerError Nat :=
  match c.chunk_length_s with
  | some chunk_length => .ok (⌊chunk_length * (c.sampling_rate : ℚ)⌋).toNat
  | none => .error .invalidConfig

/-- `AudioConfig::audio_length_per_tok`:
`(sampling_rate / frame_rate / hop_length) as usize`. -/
def AudioConfig.audio_length_per_tok (c : AudioConfig) : Nat :=
  (⌊(c.sampling_rate : ℚ) / c.frame_rate / (c.audio_encoding_config.hop_length : ℚ)⌋).toNat

/-- `Audio` from `src/audio.rs`; samples (`f32`) are modelled as `ℚ`
(padding only ever appends the constant `0`). -/
structure Audio where
  audio_array : List ℚ
  sampling_rate : Nat
  format : List Nat
deriving DecidableEq

/-- `Audio::duration`. -/
def Audio.duration (a : Audio) : ℚ :=
  (a.audio_array.length : ℚ) / (a.sampling_rate : ℚ)

/-- `Audio::resample`: a no-op when the rates already match, otherwise an
explicit unsupported-operation error. -/
def Audio.resample (a : Audio) (target_rate : Nat) : Except TokenizerError Audio :=
  if a.sampling_rate = target_rate then .ok a else .error .audio

/-- `Audio::pad`.  When a chunk length is configured the code computes
`((current_length + chunk_frames - 1) / chunk_frames) * chunk_frames`; if
`chunk_frames = 0` this division panics in Rust, modelled as `.error .panic`. -/
def Audio.pad (a : Audio) (config : AudioConfig) : Except TokenizerError Audio :=
  let current_length := a.audio_array.length
  match config.chunk_length_s with
  | some _ =>
    match config.chunk_frames with
    | .error e => .error e
    | .ok chunk_frames =>
      if chunk_frames = 0 then .error .panic
      else
        let target_length :=
          ((current_length + chunk_frames - 1) / chunk_frames) * chunk_frames
        if current_length < target_length then
          .ok ⟨a.audio_array ++ List.replicate (target_length - current_length) 0,
               a.sampling_rate, a.format⟩
        else .ok a
  | none =>
    if current_length < config.audio_encoding_config.window_size then
      .ok ⟨a.audio_array ++
             List.replicate (config.audio_encoding_config.window_size - current_length) 0,
           a.sampling_rate, a.format⟩
    else .ok a

/-- `AudioEncoding` from `src/audio.rs`. -/
structure AudioEncoding where
  tokens : List Nat
  audio : Audio
deriving DecidableEq

/-- `AudioEncoder` from `src/audio.rs`. -/
structure AudioEncoder where
  config : AudioConfig
  audio_token_id : Nat
  begin_audio_token_id : Nat
deriving DecidableEq

/-- `AudioEncoder::encode`.  The `f64` hop/token arithmetic is modelled over `ℚ`:
`(x).ceil() as usize` is `Int.toNat ∘ Int.ceil` for the finite values arising
here.  (In Rust, a zero `hop_length` would panic on `%` and a zero
`audio_length_per_tok` would give an infinite quotient; theorems about this
function assume the validated bounds `hop_length ≥ 1`, `audio_length_per_tok ≥ 1`.) -/
def AudioEncoder.encode (enc : AudioEncoder) (audio : Audio) :
    Except TokenizerError AudioEncoding :=
  match audio.resample enc.config.sampling_rate with
  | .error e => .error e
  | .ok audio =>
    match audio.pad enc.config with
    | .error e => .error e
    | .ok audio =>
      let signal_length := audio.audio_array.length
      let hop := enc.config.audio_encoding_config.hop_length
      let signal_length :=
        if signal_length % hop ≠ 0 then
          (⌈(signal_length : ℚ) / (hop : ℚ) - 1⌉).toNat
        else signal_length / hop
      let num_audio_tokens :=
        (⌈(signal_length : ℚ) / (enc.config.audio_length_per_tok : ℚ)⌉).toNat
      .ok ⟨[enc.begin_audio_token_id] ++
             List.replicate num_audio_tokens enc.audio_token_id,
           audio⟩

/-! ## Mel-scale conversions (`src/audio.rs`), modelled over `ℝ` -/

/-- `hertz_to_mel` from `src/audio.rs` (Slaney formula), with `f64` modelled as `ℝ`. -/
noncomputable def hertz_to_mel (freq : ℝ) : ℝ :=
  let min_log_hertz : ℝ := 1000
  let min_log_mel : ℝ := 15
  let logstep : ℝ := 27 / Real.log 6.4
  if freq ≥ min_log_hertz then
    min_log_mel + Real.log (freq / min_log_hertz) * logstep
  else
    3 * freq / 200

/-- `mel_to_hertz` from `src/audio.rs`, with `f64` modelled as `ℝ`. -/
noncomputable def mel_to_hertz (mel : ℝ) : ℝ :=
  let min_log_hertz : ℝ := 1000
  let min_log_mel : ℝ := 15
  let logstep : ℝ := Real.log 6.4 / 27
  if mel ≥ min_log_mel then
    min_log_hertz * Real.exp ((mel - min_log_mel) * logstep)
  else
    200 * mel / 3

/-! ## Vocabulary / BPE adapter (`src/tekkenizer.rs`) -/

/-- The mergeable-ranks table `FxHashMap<Vec<u8>, u32>`, modelled as an
association list whose keys (byte sequences) are kept unique by `insertRank`. -/
abbrev RankTable := List (List Nat × Nat)

/-- Map insertion: replaces the binding of an existing key, otherwise appends. -/
def insertRank (table : RankTable) (bytes : List Nat) (rank : Nat) : RankTable :=
  if table.any (fun p => p.1 = bytes) then
    table.map (fun p => if p.1 = bytes then (bytes, rank) else p)
  else table ++ [(bytes, rank)]

/-- The `ranks` map built by the insertion loop of `reload_mergeable_ranks`. -/
def buildTable (vocab : List TokenInfo) : RankTable :=
  vocab.foldl (fun acc t => insertRank acc t.token_bytes t.rank) []

/-- The contiguity check of `reload_mergeable_ranks`: the set of rank values
equals `{0, …, table.length - 1}` (mutual inclusion of the two finite sets). -/
def contiguousRanks (table : RankTable) : Bool :=
  let vals := table.map (fun p => p.2)
  (List.range table.length).all (fun r => vals.contains r) &&
    vals.all (fun v => decide (v < table.length))

/-- The truncation `vocab.into_iter().take(max_vocab)` applied when the vocabulary
is longer than `max_vocab`. -/
def truncateVocab (vocab : List TokenInfo) (max_vocab : Nat) : List TokenInfo :=
  if max_vocab < vocab.length then vocab.take max_vocab else vocab

/-- `reload_mergeable_ranks` from `src/tekkenizer.rs`.  The source interleaves the
byte-token check with the insertions and returns at the first violation; since
all failures carry the same modelled error value `.invalidConfig`, checking all
entries first is equivalent.  Base64 decoding of `token_bytes` is abstracted
away (the bytes are already decoded in this model). -/
def reload_mergeable_ranks (vocab : List TokenInfo) (max_vocab : Nat) :
    Except TokenizerError RankTable :=
  let vocab := truncateVocab vocab max_vocab
  if vocab.any (fun t => decide (t.rank < 256) && decide (t.token_bytes ≠ [t.rank])) then
    .error .invalidConfig
  else
    let ranks := buildTable vocab
    if contiguousRanks ranks then .ok ranks else .error .invalidConfig

/-! ## The tokenizer facade (`src/tekkenizer.rs`) -/

/-- First-match lookup in the reverse `rank → bytes` map. -/
def lookupBytes (table : List (Nat × List Nat)) (rank : Nat) : Option (List Nat) :=
  (table.find? (fun p => p.1 = rank)).map (fun p => p.2)

/-- Lookup in the `text → rank` special-tokens map.  The source collects the
pairs into a `HashMap`, so a later binding for the same text wins; searching
the reversed list reproduces that. -/
def lookupTextRank (m : List (List Nat × Nat)) (s : List Nat) : Option Nat :=
  (m.reverse.find? (fun p => p.1 = s)).map (fun p => p.2)

/-- Digit accumulator: `decDigitsGo fuel m acc` prepends the decimal digits of
`m` (most significant first) to `acc`; any `fuel ≥ m` makes it total. -/
def decDigitsGo : Nat → Nat → List Nat → List Nat
  | 0, _, acc => acc
  | _ + 1, 0, acc => acc
  | fuel + 1, m + 1, acc =>
    decDigitsGo fuel ((m + 1) / 10) ((m + 1) % 10 :: acc)

/-- Decimal digits (as ASCII bytes) of a natural number, as `format!("{i}")`
renders it. -/
def decDigits (n : Nat) : List Nat :=
  if n = 0 then [48] else (decDigitsGo n n []).map (fun d => d + 48)

/-- The UTF-8 bytes of the synthetic place-holder text `"<SPECIAL_{i}>"`. -/
def placeholderText (i : Nat) : List Nat :=
  [60, 83, 80, 69, 67, 73, 65, 76, 95] ++ decDigits i ++ [62]

/-- The UTF-8 bytes of `SpecialTokens::Audio.as_str()`, `"[AUDIO]"`. -/
def audioStr : List Nat := [91, 65, 85, 68, 73, 79, 93]

/-- The UTF-8 bytes of `SpecialTokens::BeginAudio.as_str()`, `"[BEGIN_AUDIO]"`. -/
def beginAudioStr : List Nat := [91, 66, 69, 71, 73, 78, 95, 65, 85, 68, 73, 79, 93]

/-- The UTF-8 bytes of `SpecialTokens::Bos.as_str()`, `"<s>"`. -/
def bosStr : List Nat := [60, 115, 62]

/-- The UTF-8 bytes of `SpecialTokens::Eos.as_str()`, `"</s>"`. -/
def eosStr : List Nat := [60, 47, 115, 62]

/-- The `Tekkenizer` struct.  The `CoreBPE` engine owned by the Rust struct is an
external collaborator; this model records the mergeable-ranks table the engine
was built from, and the operations that invoke the engine take its behaviour
(`bpe_encode` / `bpe_decode`) as an explicit argument. -/
structure Tekkenizer where
  mergeable_ranks : RankTable
  vocab_size : Nat
  num_special_tokens : Nat
  version : TokenizerVersion
  special_tokens : List SpecialTokenInfo
  special_tokens_map : List (List Nat × Nat)
  vocab : List (List Nat)
  audio_config : Option AudioConfig
  audio_encoder : Option AudioEncoder
deriving DecidableEq, Inhabited

/-- `Tekkenizer::new`.  `lossy` models `String::from_utf8_lossy` (an external
standard-library function) used only to materialise the display vocabulary.
`CoreBPE::new` — the construction of the external engine from the table and
the fixed regex pattern — has no modelled failure mode. -/
def Tekkenizer.new (lossy : List Nat → List Nat)
    (vocab : List TokenInfo) (special_tokens : List SpecialTokenInfo)
    (vocab_size num_special_tokens : Nat) (version : TokenizerVersion)
    (audio_config : Option AudioConfig) : Except TokenizerError Tekkenizer :=
  if vocab.length + num_special_tokens < vocab_size then .error .invalidConfig
  else if ¬ (special_tokens.map (fun t => t.token_str)).Nodup then .error .invalidConfig
  else if num_special_tokens < special_tokens.length then .error .invalidConfig
  else
    let all_special_tokens := special_tokens ++
      (List.range' special_tokens.length (num_special_tokens - special_tokens.length)).map
        (fun i => ⟨i, placeholderText i, true⟩)
    let inner_vocab_size := vocab_size - num_special_tokens
    match reload_mergeable_ranks vocab inner_vocab_size with
    | .error e => .error e
    | .ok mergeable_ranks =>
      let special_tokens_map := all_special_tokens.map (fun t => (t.token_str, t.rank))
      let rank_to_bytes : List (Nat × List Nat) := mergeable_ranks.map (fun p => (p.2, p.1))
      let vocab_strings := (List.range vocab_size).map (fun i =>
        if i < num_special_tokens then
          ((all_special_tokens.get? i).map (fun t => t.token_str)).getD []
        else
          match lookupBytes rank_to_bytes (i - num_special_tokens) with
          | some bytes => lossy bytes
          | none => [60, 63, 62])
      match audio_config with
      | some cfg =>
        match lookupTextRank special_tokens_map audioStr,
              lookupTextRank special_tokens_map beginAudioStr with
        | some audio_token_id, some begin_audio_token_id =>
          .ok ⟨mergeable_ranks, vocab_size, num_special_tokens, version,
               all_special_tokens, special_tokens_map, vocab_strings, audio_config,
               some ⟨cfg, audio_token_id, begin_audio_token_id⟩⟩
        | _, _ => .error .tokenNotFound
      | none =>
        .ok ⟨mergeable_ranks, vocab_size, num_special_tokens, version,
             all_special_tokens, special_tokens_map, vocab_strings, audio_config, none⟩

/-- `Tekkenizer::get_control_token`. -/
def Tekkenizer.get_control_token (T : Tekkenizer) (token_str : List Nat) :
    Except TokenizerError Nat :=
  match lookupTextRank T.special_tokens_map token_str with
  | some id => .ok id
  | none => .error .tokenNotFound

/-- `Tekkenizer::bos_id`. -/
def Tekkenizer.bos_id (T : Tekkenizer) : Except TokenizerError Nat :=
  T.get_control_token bosStr

/-- `Tekkenizer::eos_id`. -/
def Tekkenizer.eos_id (T : Tekkenizer) : Except TokenizerError Nat :=
  T.get_control_token eosStr

/-- `Tekkenizer::is_special_token`. -/
def Tekkenizer.is_special_token (T : Tekkenizer) (token_id : Nat) : Bool :=
  token_id < T.num_special_tokens

/-- `Tekkenizer::encode`.  `bpe_encode` is the external engine's `encode`
(UTF-8 bytes to raw ranks), which cannot fail. -/
def Tekkenizer.encode (T : Tekkenizer) (bpe_encode : List Nat → List Nat)
    (text : List Nat) (add_beginning_of_sequence add_end_of_sequence : Bool) :
    Except TokenizerError (List Nat) :=
  let tokens := (bpe_encode text).map (fun t => t + T.num_special_tokens)
  let with_bos : Except TokenizerError (List Nat) :=
    if add_beginning_of_sequence then
      match T.bos_id with
      | .ok bos => .ok (bos :: tokens)
      | .error e => .error e
    else .ok tokens
  match with_bos with
  | .error e => .error e
  | .ok tokens =>
    if add_end_of_sequence then
      match T.eos_id with
      | .ok eos => .ok (tokens ++ [eos])
      | .error e => .error e
    else .ok tokens

/-- `Tekkenizer::decode_group`.  `bpe_decode` is the external engine's `decode`
(raw ranks to UTF-8 bytes, or an engine error).  Returns the segments appended
to `decoded` by the source.  The indexing `self.special_tokens[token_id]` is a
panic when out of bounds. -/
def Tekkenizer.decode_group (T : Tekkenizer)
    (bpe_decode : List Nat → Except Unit (List Nat))
    (group : List Nat) (is_special : Bool)
    (special_token_policy : SpecialTokenPolicy) :
    Except TokenizerError (List (List Nat)) :=
  if is_special then
    match special_token_policy with
    | .raise => .error .specialTokenPolicy
    | .keep =>
      group.mapM (fun token_id =>
        match T.special_tokens.get? token_id with
        | some info => .ok info.token_str
        | none => .error .panic)
    | .ignore => .ok []
  else
    match bpe_decode (group.map (fun t => t - T.num_special_tokens)) with
    | .ok decoded_text => .ok [decoded_text]
    | .error _ => .error .tokenizers

/-- The grouping loop of `Tekkenizer::decode_all`: `current_group` and
`current_is_special` are the loop state after at least one token has been seen,
`decoded` the segments produced so far. -/
def Tekkenizer.decodeAllGo (T : Tekkenizer)
    (bpe_decode : List Nat → Except Unit (List Nat))
    (policy : SpecialTokenPolicy) :
    List Nat → List Nat → Bool → List (List Nat) →
    Except TokenizerError (List (List Nat))
  | [], current_group, current_is_special, decoded =>
    match T.decode_group bpe_decode current_group current_is_special policy with
    | .ok segs => .ok (decoded ++ segs)
    | .error e => .error e
  | token_id :: rest, current_group, current_is_special, decoded =>
    let is_special := decide (token_id < T.num_special_tokens)
    if is_special = current_is_special then
      T.decodeAllGo bpe_decode policy rest (current_group ++ [token_id])
        current_is_special decoded
    else
      match T.decode_group bpe_decode current_group current_is_special policy with
      | .ok segs =>
        T.decodeAllGo bpe_decode policy rest [token_id] is_special (decoded ++ segs)
      | .error e => .error e

/-- `Tekkenizer::decode_all`: partitions the tokens into maximal
special/non-special runs and decodes each run via `decode_group`. -/
def Tekkenizer.decode_all (T : Tekkenizer)
    (bpe_decode : List Nat → Except Unit (List Nat))
    (tokens : List Nat) (special_token_policy : SpecialTokenPolicy) :
    Except TokenizerError (List (List Nat)) :=
  match tokens with
  | [] => .ok []
  | t :: rest =>
    T.decodeAllGo bpe_decode special_token_policy rest [t]
      (decide (t < T.num_special_tokens)) []

/-- `Tekkenizer::decode`: `decode_all` then concatenation. -/
def Tekkenizer.decode (T : Tekkenizer)
    (bpe_decode : List Nat → Except Unit (List Nat))
    (tokens : List Nat) (special_token_policy : SpecialTokenPolicy) :
    Except TokenizerError (List Nat) :=
  (T.decode_all bpe_decode tokens special_token_policy).map List.flatten

/-- `Tekkenizer::id_to_piece`: bounds check then `decode([id], Keep)`. -/
def Tekkenizer.id_to_piece (T : Tekkenizer)
    (bpe_decode : List Nat → Except Unit (List Nat)) (token_id : Nat) :
    Except TokenizerError (List Nat) :=
  if T.vocab_size ≤ token_id then .error .invalidConfig
  else T.decode bpe_decode [token_id] .keep

/-- `Tekkenizer::id_to_byte_piece`. -/
def Tekkenizer.id_to_byte_piece (T : Tekkenizer)
    (bpe_decode : List Nat → Except Unit (List Nat)) (token_id : Nat)
    (special_token_policy : SpecialTokenPolicy) :
    Except TokenizerError (List Nat) :=
  if T.vocab_size ≤ token_id then .error .invalidConfig
  else if token_id < T.num_special_tokens then
    match special_token_policy with
    | .keep =>
      match T.special_tokens.get? token_id with
      | some info => .ok info.token_str
      | none => .error .panic
    | .raise => .error .specialTokenPolicy
    | .ignore => .ok []
  else
    match bpe_decode [token_id - T.num_special_tokens] with
    | .ok decoded => .ok decoded
    | .error _ =>
      match T.vocab.get? token_id with
      | some vocab_entry => .ok vocab_entry
      | none => .error .tokenizers

/-! ## A concrete engine modelled from the spec (for counterexamples) -/

/-- Is `b` a UTF-8 continuation byte (`0x80–0xBF`)? -/
def contByte (b : Nat) : Bool := 128 ≤ b && b ≤ 191

/-- Strict UTF-8 validity of a byte list (RFC 3629: no overlong forms, no
surrogates, nothing above `U+10FFFF`), as `String::from_utf8` checks it. -/
def utf8Valid : List Nat → Bool
  | [] => true
  | b :: rest =>
    if b ≤ 127 then utf8Valid rest
    else if 194 ≤ b && b ≤ 223 then
      match rest with
      | c1 :: r => contByte c1 && utf8Valid r
      | [] => false
    else if b = 224 then
      match rest with
      | c1 :: c2 :: r => (160 ≤ c1 && c1 ≤ 191) && contByte c2 && utf8Valid r
      | _ => false
    else if 225 ≤ b && b ≤ 236 then
      match rest with
      | c1 :: c2 :: r => contByte c1 && contByte c2 && utf8Valid r
      | _ => false
    else if b = 237 then
      match rest with
      | c1 :: c2 :: r => (128 ≤ c1 && c1 ≤ 159) && contByte c2 && utf8Valid r
      | _ => false
    else if 238 ≤ b && b ≤ 239 then
      match rest with
      | c1 :: c2 :: r => contByte c1 && contByte c2 && utf8Valid r
      | _ => false
    else if b = 240 then
      match rest with
      | c1 :: c2 :: c3 :: r =>
        (144 ≤ c1 && c1 ≤ 191) && contByte c2 && contByte c3 && utf8Valid r
      | _ => false
    else if 241 ≤ b && b ≤ 243 then
      match rest with
      | c1 :: c2 :: c3 :: r => contByte c1 && contByte c2 && contByte c3 && utf8Valid r
      | _ => false
    else if b = 244 then
      match rest with
      | c1 :: c2 :: c3 :: r =>
        (128 ≤ c1 && c1 ≤ 143) && contByte c2 && contByte c3 && utf8Valid r
      | _ => false
    else false

/-- Modelled from the spec: the external BPE engine's `decode` (the engine itself,
`tiktoken_rs::CoreBPE`, is not part of this repository).  Per spec §6/§9 the
engine maps each rank to its byte sequence from the table and concatenates; per
spec §4.6/§7 it fails when the result is not a valid UTF-8 string ("an individual
byte-level rank not forming valid UTF-8 alone"), and an unknown rank is likewise
an engine failure. -/
def specBpeDecode (table : RankTable) (ranks : List Nat) : Except Unit (List Nat) :=
  match ranks.mapM (fun r =>
      match table.find? (fun p => p.2 = r) with
      | some p => Except.ok p.1
      | none => Except.error ()) with
  | .error e => .error e
  | .ok pieces =>
    let bytes := pieces.flatten
    if utf8Valid bytes then .ok bytes else .error ()

/-! ## Claim-side arithmetic (the spec's integer formulas) -/

/-- Ceiling division on naturals, `ceil(a / b)` for `b ≥ 1`, as the spec writes it. -/
def natCeilDiv (a b : Nat) : Nat := (a + b - 1) / b

/-- The spec's formula for `signal_length_in_hops` (spec §4.3 step (3)):
`ceil(L / h) - 1` when `L mod h ≠ 0`, and `L / h` otherwise. -/
def specSignalLengthInHops (L h : Nat) : Nat :=
  if L % h ≠ 0 then natCeilDiv L h - 1 else L / h

/-! ## Arithmetic lemmas -/

theorem ceil_div_mul_bounds (cur cf : Nat) (h : 1 ≤ cf) :
    cur ≤ ((cur + cf - 1) / cf) * cf ∧ ((cur + cf - 1) / cf) * cf < cur + cf := by
  have hd := Nat.mod_add_div' (cur + cf - 1) cf
  have hm : (cur + cf - 1) % cf < cf := Nat.mod_lt _ (by omega)
  generalize (cur + cf - 1) / cf = q at hd ⊢
  generalize hq : q * cf = x at hd ⊢
  omega

theorem ceil_div_mul_min (cur m cf : Nat) (h : 1 ≤ cf) (hm : m % cf = 0)
    (hcm : cur ≤ m) : ((cur + cf - 1) / cf) * cf ≤ m := by
  obtain ⟨k, hk⟩ := Nat.dvd_of_mod_eq_zero hm
  have h1 : (cur + cf - 1) / cf ≤ (m + cf - 1) / cf := Nat.div_le_div_right (by omega)
  have h2 : (m + cf - 1) / cf = k := by
    subst hk
    rw [show cf * k + cf - 1 = (cf - 1) + cf * k by omega,
        Nat.add_mul_div_left _ _ (show 0 < cf by omega),
        Nat.div_eq_of_lt (by omega), Nat.zero_add]
  calc ((cur + cf - 1) / cf) * cf ≤ k * cf := Nat.mul_le_mul_right _ (h2 ▸ h1)
    _ = m := by rw [hk, Nat.mul_comm]

theorem ceil_div_rat_eq (a b : Nat) (hb : 1 ≤ b) :
    ⌈(a : ℚ) / (b : ℚ)⌉ = ((natCeilDiv a b : Nat) : ℤ) := by
  have hb' : (0 : ℚ) < (b : ℚ) := by
    have : 0 < b := hb
    exact_mod_cast this
  have hbd := ceil_div_mul_bounds a b hb
  rw [Int.ceil_eq_iff]
  refine ⟨?_, ?_⟩
  · have h2 : ((natCeilDiv a b : Nat) : ℚ) * b < (a : ℚ) + b := by
      have := hbd.2
      unfold natCeilDiv
      exact_mod_cast this
    push_cast
    rw [sub_lt_iff_lt_add,
        show (a : ℚ) / (b : ℚ) + 1 = ((a : ℚ) + b) / b by field_simp,
        lt_div_iff hb']
    exact h2
  · have h1 : (a : ℚ) ≤ ((natCeilDiv a b : Nat) : ℚ) * b := by
      have := hbd.1
      unfold natCeilDiv
      exact_mod_cast this
    push_cast
    rw [div_le_iff hb']
    exact_mod_cast h1

theorem ceil_div_rat_toNat (a b : Nat) (hb : 1 ≤ b) :
    (⌈(a : ℚ) / (b : ℚ)⌉).toNat = natCeilDiv a b := by
  rw [ceil_div_rat_eq a b hb, Int.toNat_natCast]

theorem ceil_div_rat_sub_one_toNat (a b : Nat) (hb : 1 ≤ b) (ha : a % b ≠ 0) :
    (⌈(a : ℚ) / (b : ℚ) - 1⌉).toNat = natCeilDiv a b - 1 := by
  have hstep : ⌈(a : ℚ) / (b : ℚ) - 1⌉ = ⌈(a : ℚ) / (b : ℚ)⌉ - 1 := by
    have := Int.ceil_sub_int ((a : ℚ) / (b : ℚ)) 1
    simpa using this
  have ha1 : 1 ≤ a := by
    rcases Nat.eq_zero_or_pos a with h0 | h1
    · exact absurd (by simp [h0]) ha
    · exact h1
  have hq : 1 ≤ natCeilDiv a b := by
    unfold natCeilDiv
    have : b ≤ a + b - 1 := by omega
    calc 1 = b / b := (Nat.div_self (by omega)).symm
      _ ≤ (a + b - 1) / b := Nat.div_le_div_right this
  rw [hstep, ceil_div_rat_eq a b hb]
  omega

/-! ## C8: mel-scale round trip -/

/-- **C8** (confirmed).  For every frequency `f` in `[0, 20000]` Hz,
`mel_to_hertz (hertz_to_mel f) = f`: the two piecewise conversions (linear
`3 f / 200` below 1000 Hz, logarithmic with step `27 / ln 6.4` above, anchored
at 1000 Hz / 15 mel) are mutual inverses.  The `f64` computation is modelled
over `ℝ`, where the round trip is exact (the claim's floating tolerance is the
image of this identity under rounding). -/
theorem mel_round_trip (f : ℝ) (h0 : 0 ≤ f) (h2 : f ≤ 20000) :
    mel_to_hertz (hertz_to_mel f) = f := by
  have hlog : 0 < Real.log 6.4 := Real.log_pos (by norm_num)
  simp only [hertz_to_mel, mel_to_hertz]
  by_cases hf : f ≥ 1000
  · rw [if_pos hf]
    have hdiv : (1 : ℝ) ≤ f / 1000 := by
      rw [le_div_iff (by norm_num : (0:ℝ) < 1000)]
      linarith
    have hlogf : 0 ≤ Real.log (f / 1000) := Real.log_nonneg hdiv
    have hmel : 15 + Real.log (f / 1000) * (27 / Real.log 6.4) ≥ 15 := by
      have : 0 ≤ Real.log (f / 1000) * (27 / Real.log 6.4) := by positivity
      linarith
    rw [if_pos hmel]
    have hcancel : Real.log (f / 1000) * (27 / Real.log 6.4) * (Real.log 6.4 / 27)
        = Real.log (f / 1000) := by
      field_simp
    rw [add_sub_cancel_left, hcancel, Real.exp_log (by positivity)]
    field_simp
  · rw [if_neg hf]
    push_neg at hf
    have hmel : ¬ (3 * f / 200 ≥ 15) := by
      intro hge
      have : f ≥ 1000 := by linarith
      linarith
    rw [if_neg hmel]
    ring

/-- Witness for `mel_round_trip` at `f = 1000`. -/
theorem mel_round_trip_witness : mel_to_hertz (hertz_to_mel 1000) = 1000 :=
  mel_round_trip 1000 (by norm_num) (by norm_num)

/-! ## C4 and C9: padding and chunk frames -/

/-- **C4** (counterexample to the claim as stated).  `AudioConfig::new` accepts
`sampling_rate = 100`, `chunk_length_s = 1/1000` (both strictly positive), yet
`chunk_frames` evaluates to `0` and `pad` on a one-sample waveform divides by
zero (a Rust panic) instead of returning the smallest multiple of
`chunk_frames` that is at least the current length (no such multiple exists). -/
theorem pad_div_zero_cex :
    AudioConfig.new 100 1 ⟨80, 160, 400⟩ (some (1 / 1000))
        = .ok ⟨100, 1, ⟨80, 160, 400⟩, some (1 / 1000)⟩
    ∧ (Audio.mk [0] 100 []).pad ⟨100, 1, ⟨80, 160, 400⟩, some (1 / 1000)⟩
        = .error .panic := by
  have hcf : (AudioConfig.mk 100 1 ⟨80, 160, 400⟩ (some (1 / 1000))).chunk_frames
      = .ok 0 := by
    rw [AudioConfig.chunk_frames]
    norm_num
  constructor
  · rw [AudioConfig.new]
    norm_num
  · rw [Audio.pad, hcf]
    norm_num

/-- **C4** (amended): for every waveform and validated config, *provided
`chunk_frames ≥ 1` when a chunk length is configured* (the division panics when
`chunk_frames = 0`, which validation does not rule out): if a chunk length is
configured, `pad` appends zeros up to the smallest multiple of `chunk_frames`
that is `≥` the current length; otherwise it pads up to `window_size` when the
current length is below it and is a no-op otherwise.  The original samples are
always preserved as a prefix and padding never truncates. -/
theorem pad_spec (a : Audio) (config : AudioConfig) :
    (∀ cf, config.chunk_frames = .ok cf → 1 ≤ cf →
      ∃ k, a.pad config =
          .ok ⟨a.audio_array ++ List.replicate k 0, a.sampling_rate, a.format⟩
        ∧ (a.audio_array.length + k) % cf = 0
        ∧ (∀ m, a.audio_array.length ≤ m → m % cf = 0 →
            a.audio_array.length + k ≤ m))
    ∧ (config.chunk_length_s = none →
        (a.audio_array.length < config.audio_encoding_config.window_size →
          a.pad config = .ok ⟨a.audio_array ++
              List.replicate
                (config.audio_encoding_config.window_size - a.audio_array.length) 0,
              a.sampling_rate, a.format⟩)
        ∧ (config.audio_encoding_config.window_size ≤ a.audio_array.length →
          a.pad config = .ok a)) := by
  constructor
  · intro cf hcf hcf1
    rcases hchunk : config.chunk_length_s with _ | c
    · rw [AudioConfig.chunk_frames, hchunk] at hcf
      exact absurd hcf (by simp)
    · have hne : cf ≠ 0 := by omega
      have hbd := ceil_div_mul_bounds a.audio_array.length cf hcf1
      refine ⟨((a.audio_array.length + cf - 1) / cf) * cf - a.audio_array.length,
        ?_, ?_, ?_⟩
      · rw [Audio.pad, hchunk, hcf]
        simp only [hne, if_false]
        rcases Nat.lt_or_ge a.audio_array.length
            (((a.audio_array.length + cf - 1) / cf) * cf) with hlt | hge
        · rw [if_pos hlt]
        · rw [if_neg (Nat.not_lt.mpr hge)]
          have heq : ((a.audio_array.length + cf - 1) / cf) * cf
              = a.audio_array.length := le_antisymm hge hbd.1
          rw [heq, Nat.sub_self]
          simp
      · rw [Nat.add_sub_cancel' hbd.1]
        exact Nat.mul_mod_left _ _
      · intro m hm hmod
        rw [Nat.add_sub_cancel' hbd.1]
        exact ceil_div_mul_min a.audio_array.length m cf hcf1 hmod hm
  · intro hnone
    constructor
    · intro hlt
      rw [Audio.pad, hnone]
      simp only [hlt, if_true]
    · intro hge
      rw [Audio.pad, hnone]
      rw [if_neg (by omega)]

/-- Witness for `pad_spec`: a 3-sample waveform with `chunk_frames = 5` is padded
to length 5. -/
theorem pad_spec_witness :
    ∃ k, (Audio.mk [1, 2, 3] 5 []).pad ⟨5, 1, ⟨1, 1, 1⟩, some 1⟩ =
        .ok ⟨[1, 2, 3] ++ List.replicate k 0, 5, []⟩
      ∧ (3 + k) % 5 = 0
      ∧ (∀ m, 3 ≤ m → m % 5 = 0 → 3 + k ≤ m) :=
  (pad_spec (Audio.mk [1, 2, 3] 5 []) ⟨5, 1, ⟨1, 1, 1⟩, some 1⟩).1 5
    (by rw [AudioConfig.chunk_frames]; norm_num; rfl) (by norm_num)

/-- **C9** (counterexample to the claim as stated).  The construction-time
validation of `AudioConfig::new` (`chunk_length_s > 0`, `sampling_rate > 0`)
does **not** guarantee `floor(chunk_length_s * sampling_rate) ≥ 1`: with
`sampling_rate = 100` and `chunk_length_s = 1/1000` the accepted config has
`chunk_frames = 0`, and `pad` then divides by zero. -/
theorem chunk_frames_zero_cex :
    AudioConfig.new 100 1 ⟨80, 160, 400⟩ (some (1 / 1000))
        = .ok ⟨100, 1, ⟨80, 160, 400⟩, some (1 / 1000)⟩
    ∧ (AudioConfig.mk 100 1 ⟨80, 160, 400⟩ (some (1 / 1000))).chunk_frames = .ok 0
    ∧ (Audio.mk [0, 0] 100 []).pad ⟨100, 1, ⟨80, 160, 400⟩, some (1 / 1000)⟩
        = .error .panic := by
  have hcf : (AudioConfig.mk 100 1 ⟨80, 160, 400⟩ (some (1 / 1000))).chunk_frames
      = .ok 0 := by
    rw [AudioConfig.chunk_frames]
    norm_num
  refine ⟨?_, hcf, ?_⟩
  · rw [AudioConfig.new]
    norm_num
  · rw [Audio.pad, hcf]
    norm_num

/-- **C9** (amended): for every config accepted by `AudioConfig::new` with a chunk
length `c`, *under the additional hypothesis `c * sampling_rate ≥ 1`* (which
validation alone does not ensure), `chunk_frames` is at least `1` and the
division inside `pad` never divides by zero. -/
theorem chunk_frames_pos_spec (sampling_rate : Nat) (frame_rate : ℚ)
    (sc : AudioSpectrogramConfig) (c : ℚ) (cfg : AudioConfig)
    (hnew : AudioConfig.new sampling_rate frame_rate sc (some c) = .ok cfg)
    (hc : 1 ≤ c * (sampling_rate : ℚ)) :
    (∃ cf, cfg.chunk_frames = .ok cf ∧ 1 ≤ cf)
    ∧ (∀ a : Audio, a.pad cfg ≠ .error .panic) := by
  have hcfg : cfg = ⟨sampling_rate, frame_rate, sc, some c⟩ := by
    rw [AudioConfig.new] at hnew
    split at hnew
    · exact absurd hnew (by simp)
    · split at hnew
      · exact absurd hnew (by simp)
      · split at hnew
        · exact absurd hnew (by simp)
        · cases hnew
          rfl
  subst hcfg
  have hfloor : 1 ≤ (⌊c * (sampling_rate : ℚ)⌋).toNat := by
    have h1 : (1 : ℤ) ≤ ⌊c * (sampling_rate : ℚ)⌋ := by
      rw [Int.le_floor]
      exact_mod_cast hc
    omega
  constructor
  · exact ⟨_, rfl, hfloor⟩
  · intro a
    rw [Audio.pad]
    simp only [AudioConfig.chunk_frames]
    rw [if_neg (by omega)]
    split <;> simp

/-- Witness for `chunk_frames_pos_spec` at `sampling_rate = 5`, `c = 1`. -/
theorem chunk_frames_pos_spec_witness :
    (∃ cf, (AudioConfig.mk 5 1 ⟨1, 1, 1⟩ (some 1)).chunk_frames = .ok cf ∧ 1 ≤ cf)
    ∧ (∀ a : Audio, a.pad ⟨5, 1, ⟨1, 1, 1⟩, some 1⟩ ≠ .error .panic) :=
  chunk_frames_pos_spec 5 1 ⟨1, 1, 1⟩ 1 ⟨5, 1, ⟨1, 1, 1⟩, some 1⟩
    (by rw [AudioConfig.new]; norm_num) (by norm_num)

/-! ## C3: audio token count -/

/-- **C3** (confirmed).  For every waveform whose sampling rate matches the
configured rate, the audio encoder returns `[begin_audio_token_id]` followed by
exactly `num_content_tokens` copies of `audio_token_id`, where with `L` the
padded sample count and `h` the hop length,
`signal_length_in_hops = ceil(L/h) - 1` if `L % h ≠ 0` and `L / h` otherwise,
`samples_per_token = audio_length_per_tok = floor(sampling_rate / frame_rate / hop_length)`,
and `num_content_tokens = ceil(signal_length_in_hops / samples_per_token)`.
The hypotheses `hhop`/`hspt` record the validated bounds under which the `f64`
arithmetic is the stated integer arithmetic, and `hpad` names the padded
waveform (padding can panic for degenerate chunk configurations, see `pad_spec`). -/
theorem audio_encode_token_count (enc : AudioEncoder) (audio processed : Audio)
    (hrate : audio.sampling_rate = enc.config.sampling_rate)
    (hpad : audio.pad enc.config = .ok processed)
    (hhop : 1 ≤ enc.config.audio_encoding_config.hop_length)
    (hspt : 1 ≤ enc.config.audio_length_per_tok) :
    enc.encode audio = .ok ⟨[enc.begin_audio_token_id] ++
        List.replicate
          (natCeilDiv
            (specSignalLengthInHops processed.audio_array.length
              enc.config.audio_encoding_config.hop_length)
            enc.config.audio_length_per_tok)
          enc.audio_token_id,
        processed⟩ := by
  have h1 : audio.resample enc.config.sampling_rate = .ok audio := by
    rw [Audio.resample, if_pos hrate]
  simp only [AudioEncoder.encode, h1, hpad]
  by_cases hmod :
      processed.audio_array.length % enc.config.audio_encoding_config.hop_length = 0
  · rw [if_neg (not_not_intro hmod), specSignalLengthInHops,
      if_neg (not_not_intro hmod), ceil_div_rat_toNat _ _ hspt]
  · rw [if_pos hmod, specSignalLengthInHops, if_pos hmod,
      ceil_div_rat_sub_one_toNat _ _ hhop hmod, ceil_div_rat_toNat _ _ hspt]

/-- Witness for `audio_encode_token_count`: a 5-sample waveform at 160 Hz with
`hop_length = 160`, `window_size = 8`, `frame_rate = 1` is padded to 8 samples
and encodes to the begin-audio token alone (zero content tokens). -/
theorem audio_encode_token_count_witness :
    (AudioEncoder.mk ⟨160, 1, ⟨80, 160, 8⟩, none⟩ 7 9).encode
        (Audio.mk [1, 2, 3, 4, 5] 160 [])
      = .ok ⟨[9] ++ List.replicate
          (natCeilDiv
            (specSignalLengthInHops
              (Audio.mk [1, 2, 3, 4, 5, 0, 0, 0] 160 []).audio_array.length 160)
            ((AudioConfig.mk 160 1 ⟨80, 160, 8⟩ none).audio_length_per_tok)) 7,
          Audio.mk [1, 2, 3, 4, 5, 0, 0, 0] 160 []⟩ :=
  audio_encode_token_count (AudioEncoder.mk ⟨160, 1, ⟨80, 160, 8⟩, none⟩ 7 9)
    (Audio.mk [1, 2, 3, 4, 5] 160 []) (Audio.mk [1, 2, 3, 4, 5, 0, 0, 0] 160 [])
    rfl (by rw [Audio.pad]; norm_num [List.replicate]) (by norm_num)
    (by rw [AudioConfig.audio_length_per_tok]; norm_num)

/-! ## Construction lemmas -/

/-- What a successful `Tekkenizer::new` guarantees about the resulting value. -/
theorem new_ok_elim {lossy : List Nat → List Nat} {vocab : List TokenInfo}
    {special_tokens : List SpecialTokenInfo} {vocab_size num_special_tokens : Nat}
    {version : TokenizerVersion} {audio_config : Option AudioConfig} {T : Tekkenizer}
    (h : Tekkenizer.new lossy vocab special_tokens vocab_size num_special_tokens
          version audio_config = .ok T) :
    T.vocab_size = vocab_size
    ∧ T.num_special_tokens = num_special_tokens
    ∧ T.special_tokens = special_tokens ++
        (List.range' special_tokens.length
          (num_special_tokens - special_tokens.length)).map
          (fun i => ⟨i, placeholderText i, true⟩)
    ∧ (special_tokens.map (fun t => t.token_str)).Nodup
    ∧ special_tokens.length ≤ num_special_tokens
    ∧ T.vocab.length = vocab_size
    ∧ reload_mergeable_ranks vocab (vocab_size - num_special_tokens)
        = .ok T.mergeable_ranks := by
  simp only [Tekkenizer.new] at h
  split at h
  · exact absurd h (by simp)
  split at h
  · exact absurd h (by simp)
  split at h
  · exact absurd h (by simp)
  rename_i hc0 hc1 hc2
  have hnd : (special_tokens.map (fun t => t.token_str)).Nodup := not_not.mp hc1
  have hlen : special_tokens.length ≤ num_special_tokens := Nat.not_lt.mp hc2
  rcases hreload : reload_mergeable_ranks vocab (vocab_size - num_special_tokens)
    with e | ranks <;> simp only [hreload] at h
  · exact absurd h (by simp)
  · split at h
    · split at h
      · injection h with h'
        subst h'
        exact ⟨rfl, rfl, rfl, hnd, hlen, by simp, rfl⟩
      · exact absurd h (by simp)
    · injection h with h'
      subst h'
      exact ⟨rfl, rfl, rfl, hnd, hlen, by simp, rfl⟩

/-- Every pair of `insertRank tbl b r` is a pair of `tbl` or the inserted pair. -/
theorem insertRank_mem {tbl : RankTable} {b : List Nat} {r : Nat} {p : List Nat × Nat}
    (hp : p ∈ insertRank tbl b r) : p ∈ tbl ∨ p = (b, r) := by
  rw [insertRank] at hp
  split at hp
  · obtain ⟨q, hq, hqe⟩ := List.mem_map.mp hp
    by_cases hqb : q.1 = b
    · rw [if_pos hqb] at hqe
      exact .inr hqe.symm
    · rw [if_neg hqb] at hqe
      exact .inl (hqe ▸ hq)
  · rcases List.mem_append.mp hp with h | h
    · exact .inl h
    · exact .inr (by simpa using h)

/-- Every pair of the built table comes from some vocabulary entry. -/
theorem buildTable_mem {vocab : List TokenInfo} {p : List Nat × Nat}
    (hp : p ∈ buildTable vocab) : ∃ t ∈ vocab, p = (t.token_bytes, t.rank) := by
  suffices hgen : ∀ (v : List TokenInfo) (acc : RankTable),
      p ∈ v.foldl (fun acc t => insertRank acc t.token_bytes t.rank) acc →
      p ∈ acc ∨ ∃ t ∈ v, p = (t.token_bytes, t.rank) by
    rcases hgen vocab [] hp with h | h
    · exact absurd h (by simp)
    · exact h
  intro v
  induction v with
  | nil => intro acc h; exact .inl (by simpa using h)
  | cons t ts ih =>
    intro acc h
    rcases ih (insertRank acc t.token_bytes t.rank) (by simpa using h) with h' | ⟨u, hu, he⟩
    · rcases insertRank_mem h' with h'' | h''
      · exact .inl h''
      · exact .inr ⟨t, by simp, h''⟩
    · exact .inr ⟨u, by simp [hu], he⟩

/-- All failures of `reload_mergeable_ranks` are configuration errors, and success
returns the built table with the checks passed. -/
theorem reload_cases (vocab : List TokenInfo) (max_vocab : Nat) :
    (reload_mergeable_ranks vocab max_vocab = .error .invalidConfig)
    ∨ (reload_mergeable_ranks vocab max_vocab = .ok (buildTable (truncateVocab vocab max_vocab))
        ∧ ((truncateVocab vocab max_vocab).any
            (fun t => decide (t.rank < 256) && decide (t.token_bytes ≠ [t.rank]))) = false
        ∧ contiguousRanks (buildTable (truncateVocab vocab max_vocab)) = true) := by
  simp only [reload_mergeable_ranks]
  split
  · exact .inl rfl
  · rename_i hany
    split
    · rename_i hcont
      exact .inr ⟨rfl, by simpa using hany, hcont⟩
    · exact .inl rfl

/-- `decDigitsGo` agrees with `Nat.digits` (most-significant-first). -/
theorem decDigitsGo_eq (fuel m : Nat) (acc : List Nat) (h : m ≤ fuel) :
    decDigitsGo fuel m acc = (Nat.digits 10 m).reverse ++ acc := by
  induction fuel generalizing m acc with
  | zero =>
    have hm : m = 0 := by omega
    subst hm
    simp [decDigitsGo]
  | succ fuel ih =>
    match m with
    | 0 =>
      rw [show decDigitsGo (fuel + 1) 0 acc = acc from rfl]
      simp
    | m + 1 =>
      rw [show decDigitsGo (fuel + 1) (m + 1) acc
          = decDigitsGo fuel ((m + 1) / 10) ((m + 1) % 10 :: acc) from rfl,
        ih ((m + 1) / 10) _ (by omega),
        Nat.digits_def' (by norm_num : (1 : ℕ) < 10) (Nat.succ_pos m)]
      simp

/-- For `n ≠ 0`, `decDigits` is the ASCII rendering of `Nat.digits`. -/
theorem decDigits_eq_digits (n : Nat) (h : n ≠ 0) :
    decDigits n = ((Nat.digits 10 n).reverse).map (fun d => d + 48) := by
  rw [decDigits, if_neg h, decDigitsGo_eq n n [] le_rfl]
  simp

/-- `decDigits` is injective (decimal printing is faithful). -/
theorem decDigits_injective : Function.Injective decDigits := by
  have key : ∀ k : Nat, k ≠ 0 →
      ((Nat.digits 10 k).reverse.map (fun d => d + 48) = [48]) → False := by
    intro k hk habs
    have h2 : Nat.digits 10 k = [0] := by
      have hlen : (Nat.digits 10 k).reverse.length = 1 := by
        have := congrArg List.length habs
        simpa using this
      rcases hrev : (Nat.digits 10 k).reverse with _ | ⟨d, ds⟩
      · rw [hrev] at hlen
        simp at hlen
      · rw [hrev] at hlen habs
        have hds : ds = [] := by
          simp at hlen
          exact hlen
        subst hds
        have hd : d = 0 := by
          have h48 : d + 48 = 48 := by simpa using habs
          omega
        have hdd := congrArg List.reverse hrev
        simpa [hd] using hdd
    have h3 := Nat.ofDigits_digits 10 k
    rw [h2] at h3
    exact hk (by simpa [Nat.ofDigits] using h3.symm)
  intro m n h
  by_cases hm : m = 0 <;> by_cases hn : n = 0
  · omega
  · subst hm
    rw [decDigits, if_pos rfl, decDigits_eq_digits n hn] at h
    exact (key n hn h.symm).elim
  · subst hn
    rw [decDigits_eq_digits m hm, decDigits, if_pos rfl] at h
    exact (key m hm h).elim
  · rw [decDigits_eq_digits m hm, decDigits_eq_digits n hn] at h
    have hrev : (Nat.digits 10 m).reverse = (Nat.digits 10 n).reverse := by
      have hinj : Function.Injective (fun d : Nat => d + 48) := by
        intro a b hab
        simp at hab
        omega
      exact List.map_injective_iff.mpr hinj h
    have hdig : Nat.digits 10 m = Nat.digits 10 n := List.reverse_injective hrev
    have := congrArg (Nat.ofDigits 10) hdig
    rwa [Nat.ofDigits_digits, Nat.ofDigits_digits] at this

/-- The synthetic place-holder texts are pairwise distinct. -/
theorem placeholderText_injective : Function.Injective placeholderText := by
  intro i j h
  rw [placeholderText, placeholderText, List.append_assoc, List.append_assoc] at h
  have h1 : decDigits i ++ [62] = decDigits j ++ [62] :=
    List.append_cancel_left h
  have h2 : decDigits i = decDigits j := List.append_cancel_right h1
  exact decDigits_injective h2

/-! ## C5: the special-token table after construction -/

/-- The tokenizer produced by the C5 counterexample construction (a provided
entry with rank `5` in a one-slot table). -/
def T5bad : Tekkenizer :=
  (Tekkenizer.new id [] [⟨5, [88], true⟩] 1 1 .v7 none).toOption.getD default

/-- **C5** (counterexample to the claim as stated).  `Tekkenizer::new` never
validates the `rank` fields of the provided special tokens: construction
succeeds on a single entry with rank `5` and `num_special_tokens = 1`, and the
resulting table's ranks `[5]` are not a permutation of `[0, 1)`. -/
theorem special_token_rank_cex :
    Tekkenizer.new id [] [⟨5, [88], true⟩] 1 1 .v7 none = .ok T5bad
    ∧ T5bad.special_tokens.map (fun t => t.rank) = [5]
    ∧ ¬ (T5bad.special_tokens.map (fun t => t.rank)).Perm
        (List.range T5bad.num_special_tokens) := by
  refine ⟨by decide, by decide, fun hperm => ?_⟩
  have h5 : 5 ∈ List.range T5bad.num_special_tokens := hperm.mem_iff.mp (by decide)
  revert h5
  decide

/-- **C5** (amended): after every successful construction the table holds exactly
`num_special_tokens` entries; *if in addition the provided entries' ranks are a
permutation of `[0, provided-count)` and no provided text collides with a
synthetic place-holder text* (neither of which construction checks), then the
texts are pairwise distinct and the ranks are a contiguous permutation of
`[0, num_special_tokens)`. -/
theorem special_token_table_spec (lossy : List Nat → List Nat)
    (vocab : List TokenInfo) (special_tokens : List SpecialTokenInfo)
    (vocab_size num_special_tokens : Nat) (version : TokenizerVersion)
    (audio_config : Option AudioConfig) (T : Tekkenizer)
    (h : Tekkenizer.new lossy vocab special_tokens vocab_size num_special_tokens
          version audio_config = .ok T) :
    T.special_tokens.length = num_special_tokens
    ∧ ((special_tokens.map (fun t => t.rank)).Perm
          (List.range special_tokens.length) →
       (∀ t ∈ special_tokens, ∀ i, special_tokens.length ≤ i →
          i < num_special_tokens → t.token_str ≠ placeholderText i) →
       (T.special_tokens.map (fun t => t.rank)).Perm (List.range num_special_tokens)
       ∧ (T.special_tokens.map (fun t => t.token_str)).Nodup) := by
  obtain ⟨hvs, hns, hsp, hnd, hlen, hvl, hrel⟩ := new_ok_elim h
  obtain ⟨k, hk⟩ : ∃ k, num_special_tokens = special_tokens.length + k :=
    ⟨num_special_tokens - special_tokens.length, by omega⟩
  subst hk
  simp only [Nat.add_sub_cancel_left] at hsp
  constructor
  · rw [hsp, List.length_append, List.length_map, List.length_range']
  · intro hperm hnotph
    constructor
    · rw [hsp, List.map_append, List.map_map]
      have hmm : (List.map
            ((fun t => t.rank) ∘ fun i =>
              (⟨i, placeholderText i, true⟩ : SpecialTokenInfo))
            (List.range' special_tokens.length k))
          = List.range' special_tokens.length k := by
        rw [show ((fun t => t.rank) ∘ fun i =>
            (⟨i, placeholderText i, true⟩ : SpecialTokenInfo)) = fun i => i from rfl]
        exact List.map_id' _
      rw [hmm, List.range_add, ← List.range'_eq_map_range]
      exact hperm.append (List.Perm.refl _)
    · rw [hsp, List.map_append, List.map_map]
      refine List.Nodup.append hnd ?_ ?_
      · have hmm : ((fun t => t.token_str) ∘ fun i =>
            (⟨i, placeholderText i, true⟩ : SpecialTokenInfo)) = placeholderText :=
          rfl
        rw [hmm]
        exact List.Nodup.map placeholderText_injective (List.nodup_range' _ _)
      · intro x hx hx2
        obtain ⟨t, ht, hte⟩ := List.mem_map.mp hx
        obtain ⟨i, hi, hie⟩ := List.mem_map.mp hx2
        have hmem := List.mem_range'_1.mp hi
        exact hnotph t ht i hmem.1 (by omega) (by rw [hte]; exact hie.symm ▸ rfl)

/-- The tokenizer of the C5 witness construction. -/
def T5good : Tekkenizer :=
  (Tekkenizer.new id [] [⟨0, [88], true⟩] 2 2 .v7 none).toOption.getD default

/-- Witness for `special_token_table_spec`: one provided entry of rank `0` plus
one synthetic entry give ranks `[0, 1]` and distinct texts. -/
theorem special_token_table_spec_witness :
    T5good.special_tokens.length = 2
    ∧ ((T5good.special_tokens.map (fun t => t.rank)).Perm (List.range 2)
       ∧ (T5good.special_tokens.map (fun t => t.token_str)).Nodup) := by
  have h := special_token_table_spec id [] [⟨0, [88], true⟩] 2 2 .v7 none T5good
    (by decide)
  refine ⟨h.1, h.2 (by decide) ?_⟩
  intro t ht i h1 h2
  have h1' : 1 ≤ i := by simpa using h1
  have hi : i = 1 := by omega
  subst hi
  have ht' : t = ⟨0, [88], true⟩ := by simpa using ht
  subst ht'
  decide

/-! ## C6: construction-time validation -/

/-- The tokenizer produced by the C6 counterexample construction. -/
def T6bad : Tekkenizer :=
  (Tekkenizer.new id [⟨0, [0], none⟩, ⟨1, [1], none⟩, ⟨1, [1], none⟩] [] 3 0 .v7
    none).toOption.getD default

/-- **C6** (counterexample to the claim as stated).  With `inner_vocab_size = 3`
and entries of ranks `0, 1, 1` (the last two sharing the byte sequence `[1]`),
the rank set `{0, 1}` is *not* `{0, 1, 2}`, yet construction succeeds: the
duplicate byte sequence collapses in the map, and the contiguity check only
compares against the deduplicated map's size. -/
theorem construction_contiguity_cex :
    Tekkenizer.new id [⟨0, [0], none⟩, ⟨1, [1], none⟩, ⟨1, [1], none⟩] [] 3 0 .v7 none
      = .ok T6bad
    ∧ truncateVocab [⟨0, [0], none⟩, ⟨1, [1], none⟩, ⟨1, [1], none⟩] (3 - 0)
      = [⟨0, [0], none⟩, ⟨1, [1], none⟩, ⟨1, [1], none⟩]
    ∧ ([(⟨0, [0], none⟩ : TokenInfo), ⟨1, [1], none⟩, ⟨1, [1], none⟩].map
        (fun t => t.rank)).toFinset ≠ Finset.range 3 := by
  refine ⟨by decide, by decide, by decide⟩

/-- **C6** (amended): construction fails with a configuration error whenever two
provided special tokens share identical text, whenever the byte-sequence→rank
map built from the truncated vocabulary (later entries overriding earlier ones
with the same byte sequence) does not have rank set `{0, …, map-size − 1}`
(when the truncated entries' byte sequences are pairwise distinct this is the
claim's contiguity over `inner_vocab_size`), or whenever a truncated entry of
rank `r < 256` has bytes other than `[r]`; and success implies the byte-identity
invariant for every table pair of rank below 256. -/
theorem construction_validation_spec (lossy : List Nat → List Nat)
    (vocab : List TokenInfo) (special_tokens : List SpecialTokenInfo)
    (vocab_size num_special_tokens : Nat) (version : TokenizerVersion)
    (audio_config : Option AudioConfig) :
    (¬ (special_tokens.map (fun t => t.token_str)).Nodup →
      Tekkenizer.new lossy vocab special_tokens vocab_size num_special_tokens
        version audio_config = .error .invalidConfig)
    ∧ (contiguousRanks
          (buildTable (truncateVocab vocab (vocab_size - num_special_tokens)))
          = false →
      Tekkenizer.new lossy vocab special_tokens vocab_size num_special_tokens
        version audio_config = .error .invalidConfig)
    ∧ ((∃ t ∈ truncateVocab vocab (vocab_size - num_special_tokens),
          t.rank < 256 ∧ t.token_bytes ≠ [t.rank]) →
      Tekkenizer.new lossy vocab special_tokens vocab_size num_special_tokens
        version audio_config = .error .invalidConfig)
    ∧ (∀ T, Tekkenizer.new lossy vocab special_tokens vocab_size num_special_tokens
          version audio_config = .ok T →
        ∀ p ∈ T.mergeable_ranks, p.2 < 256 → p.1 = [p.2]) := by
  have herr : ∀ (hrel : reload_mergeable_ranks vocab (vocab_size - num_special_tokens)
        = .error .invalidConfig),
      Tekkenizer.new lossy vocab special_tokens vocab_size num_special_tokens
        version audio_config = .error .invalidConfig := by
    intro hrel
    rw [Tekkenizer.new]
    by_cases h0 : vocab.length + num_special_tokens < vocab_size
    · rw [if_pos h0]
    rw [if_neg h0]
    by_cases h1 : ¬ (special_tokens.map (fun t => t.token_str)).Nodup
    · rw [if_pos h1]
    rw [if_neg h1]
    by_cases h2 : num_special_tokens < special_tokens.length
    · rw [if_pos h2]
    rw [if_neg h2]
    simp only [hrel]
  refine ⟨?_, ?_, ?_, ?_⟩
  · intro hdup
    rw [Tekkenizer.new]
    by_cases h0 : vocab.length + num_special_tokens < vocab_size
    · rw [if_pos h0]
    · rw [if_neg h0, if_pos hdup]
  · intro hcont
    refine herr ?_
    rcases reload_cases vocab (vocab_size - num_special_tokens) with h | ⟨_, _, hc⟩
    · exact h
    · rw [hcont] at hc
      exact absurd hc (by simp)
  · intro hx
    refine herr ?_
    rcases reload_cases vocab (vocab_size - num_special_tokens) with h | ⟨_, hany, _⟩
    · exact h
    · exfalso
      obtain ⟨t, ht, hr1, hr2⟩ := hx
      have htrue : ((truncateVocab vocab (vocab_size - num_special_tokens)).any
          (fun t => decide (t.rank < 256) && decide (t.token_bytes ≠ [t.rank])))
          = true :=
        List.any_eq_true.mpr ⟨t, ht, by simp [hr1, hr2]⟩
      rw [hany] at htrue
      exact absurd htrue (by simp)
  · intro T hT p hp h256
    obtain ⟨hvs, hns, hsp, hnd, hlen, hvl, hrel⟩ := new_ok_elim hT
    rcases reload_cases vocab (vocab_size - num_special_tokens) with h | ⟨hok, hany, _⟩
    · rw [h] at hrel
      exact absurd hrel (by simp)
    · rw [hok] at hrel
      injection hrel with h'
      rw [← h'] at hp
      obtain ⟨t, ht, hpe⟩ := buildTable_mem hp
      have hck : ¬ (t.rank < 256 ∧ t.token_bytes ≠ [t.rank]) := by
        intro hcc
        have htrue : ((truncateVocab vocab (vocab_size - num_special_tokens)).any
            (fun t => decide (t.rank < 256) && decide (t.token_bytes ≠ [t.rank])))
            = true :=
          List.any_eq_true.mpr ⟨t, ht, by simp [hcc.1, hcc.2]⟩
        rw [hany] at htrue
        exact absurd htrue (by simp)
      subst hpe
      simp only at h256 ⊢
      by_cases hb : t.token_bytes = [t.rank]
      · exact hb
      · exact absurd ⟨h256, hb⟩ hck

/-- Witness for `construction_validation_spec`: two provided special tokens with
identical text make construction fail with a configuration error. -/
theorem construction_validation_spec_witness :
    Tekkenizer.new id [] [⟨0, [88], true⟩, ⟨1, [88], true⟩] 2 2 .v7 none
      = .error .invalidConfig :=
  (construction_validation_spec id [] [⟨0, [88], true⟩, ⟨1, [88], true⟩] 2 2 .v7
    none).1 (by decide)

/-! ## C10: the byte-piece fallback cannot fail for in-range non-special ids -/

/-- **C10** (confirmed).  For every tokenizer produced by a successful
construction, every non-special in-range id, every policy and every behaviour of
the external engine's single-rank decode, `id_to_byte_piece` succeeds: when the
engine decode fails, the fallback lookup into the display vocabulary always hits,
because construction builds exactly `vocab_size` entries, so the final
`Failed to decode token ID` error branch is unreachable under the bounds check. -/
theorem id_to_byte_piece_total (lossy : List Nat → List Nat) (vocab : List TokenInfo)
    (special_tokens : List SpecialTokenInfo) (vocab_size num_special_tokens : Nat)
    (version : TokenizerVersion) (audio_config : Option AudioConfig) (T : Tekkenizer)
    (bpe_decode : List Nat → Except Unit (List Nat)) (token_id : Nat)
    (policy : SpecialTokenPolicy)
    (h : Tekkenizer.new lossy vocab special_tokens vocab_size num_special_tokens
          version audio_config = .ok T)
    (h1 : T.num_special_tokens ≤ token_id) (h2 : token_id < T.vocab_size) :
    (T.id_to_byte_piece bpe_decode token_id policy).isOk = true := by
  obtain ⟨hvs, hns, hsp, hnd, hlen, hvl, hrel⟩ := new_ok_elim h
  rw [Tekkenizer.id_to_byte_piece.eq_def, if_neg (by omega), if_neg (by omega)]
  rcases h3 : bpe_decode [token_id - T.num_special_tokens] with e | d
  · simp only [h3]
    rcases hget : T.vocab.get? token_id with _ | entry <;> simp only [hget]
    · exfalso
      rw [List.get?_eq_none] at hget
      omega
    · rfl
  · simp only [h3]
    rfl

/-- The tokenizer of the C10 witness construction. -/
def T10 : Tekkenizer :=
  (Tekkenizer.new id [⟨0, [0], none⟩] [] 1 0 .v7 none).toOption.getD default

/-- Witness for `id_to_byte_piece_total`, with an engine whose single-rank decode
always fails, so the vocabulary fallback path is the one exercised. -/
theorem id_to_byte_piece_total_witness :
    (T10.id_to_byte_piece (fun _ => .error ()) 0 .keep).isOk = true :=
  id_to_byte_piece_total id [⟨0, [0], none⟩] [] 1 0 .v7 none T10
    (fun _ => .error ()) 0 .keep (by decide) (by decide) (by decide)

/-! ## Decode-loop lemmas -/

/-- Processing a trailing run of non-special ids only grows the current group:
the loop equals a single `decode_group` call on the concatenated run. -/
theorem decodeAllGo_nonspecial (T : Tekkenizer)
    (e : List Nat → Except Unit (List Nat)) (policy : SpecialTokenPolicy)
    (rest : List Nat) :
    ∀ (group : List Nat) (decoded : List (List Nat)),
    (∀ id ∈ rest, ¬ id < T.num_special_tokens) →
    T.decodeAllGo e policy rest group false decoded
      = (T.decode_group e (group ++ rest) false policy).map
          (fun segs => decoded ++ segs) := by
  induction rest with
  | nil =>
    intro group decoded _
    rw [List.append_nil]
    rcases hd : T.decode_group e group false policy with er | segs <;>
      simp [Tekkenizer.decodeAllGo, hd, Except.map]
  | cons t rest ih =>
    intro group decoded hrest
    have ht : ¬ t < T.num_special_tokens := hrest t (by simp)
    simp only [Tekkenizer.decodeAllGo]
    rw [decide_eq_false ht]
    simp only [if_pos rfl]
    rw [ih (group ++ [t]) decoded (fun id hid => hrest id (by simp [hid]))]
    simp [List.append_assoc]

/-- With the Raise policy, a loop whose current group is special always fails. -/
theorem decodeAllGo_raise_special (T : Tekkenizer)
    (e : List Nat → Except Unit (List Nat)) (rest : List Nat) :
    ∀ (group : List Nat) (decoded : List (List Nat)),
    T.decodeAllGo e .raise rest group true decoded = .error .specialTokenPolicy := by
  induction rest with
  | nil =>
    intro group decoded
    simp [Tekkenizer.decodeAllGo, Tekkenizer.decode_group]
  | cons t rest ih =>
    intro group decoded
    simp only [Tekkenizer.decodeAllGo]
    by_cases ht : t < T.num_special_tokens
    · rw [decide_eq_true ht]
      simp only [if_pos rfl]
      exact ih _ _
    · rw [decide_eq_false ht]
      simp [Tekkenizer.decode_group]

/-- With the Raise policy, the loop fails whenever a special id is still ahead. -/
theorem decodeAllGo_raise_err_of_mem (T : Tekkenizer)
    (e : List Nat → Except Unit (List Nat)) (rest : List Nat) :
    ∀ (group : List Nat) (decoded : List (List Nat)),
    (∃ id ∈ rest, id < T.num_special_tokens) →
    ∃ err, T.decodeAllGo e .raise rest group false decoded = .error err := by
  induction rest with
  | nil =>
    intro group decoded h
    exact absurd h (by simp)
  | cons t rest ih =>
    intro group decoded h
    simp only [Tekkenizer.decodeAllGo]
    by_cases ht : t < T.num_special_tokens
    · rw [decide_eq_true ht]
      rw [if_neg (by decide : ¬ ((true : Bool) = false))]
      rcases hd : T.decode_group e group false .raise with er | segs
      · exact ⟨er, by simp [hd]⟩
      · refine ⟨.specialTokenPolicy, ?_⟩
        simp only [hd]
        exact decodeAllGo_raise_special T e rest [t] (decoded ++ segs)
    · rw [decide_eq_false ht]
      simp only [if_pos rfl]
      refine ih _ _ ?_
      rcases h with ⟨id, hid, hlt⟩
      rcases List.mem_cons.mp hid with rfl | hid'
      · exact absurd hlt ht
      · exact ⟨id, hid', hlt⟩

/-- With the Ignore policy and an engine whose decode always succeeds, the loop
always succeeds, and every emitted segment is the engine's decoding of a run of
non-special ids (no segment comes from a special token). -/
theorem decodeAllGo_ignore_ok (T : Tekkenizer)
    (e : List Nat → Except Unit (List Nat)) (he : ∀ l, ∃ s, e l = .ok s)
    (rest : List Nat) :
    ∀ (group : List Nat) (sp : Bool) (decoded : List (List Nat)),
    (sp = false → ∀ id ∈ group, ¬ id < T.num_special_tokens) →
    (∀ s ∈ decoded, ∃ run : List Nat, (∀ id ∈ run, ¬ id < T.num_special_tokens)
        ∧ e (run.map (fun x => x - T.num_special_tokens)) = .ok s) →
    ∃ ss, T.decodeAllGo e .ignore rest group sp decoded = .ok ss
        ∧ ∀ s ∈ ss, ∃ run : List Nat, (∀ id ∈ run, ¬ id < T.num_special_tokens)
            ∧ e (run.map (fun x => x - T.num_special_tokens)) = .ok s := by
  have hflush : ∀ (group : List Nat) (sp : Bool),
      (sp = false → ∀ id ∈ group, ¬ id < T.num_special_tokens) →
      ∃ segs, T.decode_group e group sp .ignore = .ok segs
        ∧ ∀ s ∈ segs, ∃ run : List Nat, (∀ id ∈ run, ¬ id < T.num_special_tokens)
            ∧ e (run.map (fun x => x - T.num_special_tokens)) = .ok s := by
    intro group sp hg
    cases sp with
    | true => exact ⟨[], by simp [Tekkenizer.decode_group], by simp⟩
    | false =>
      obtain ⟨s, hs⟩ := he (group.map (fun x => x - T.num_special_tokens))
      refine ⟨[s], by simp [Tekkenizer.decode_group, hs], ?_⟩
      intro x hx
      rcases List.mem_singleton.mp hx with rfl
      exact ⟨group, hg rfl, hs⟩
  induction rest with
  | nil =>
    intro group sp decoded hg hd
    obtain ⟨segs, hsegs, hP⟩ := hflush group sp hg
    refine ⟨decoded ++ segs, by simp [Tekkenizer.decodeAllGo, hsegs], ?_⟩
    intro s hs
    rcases List.mem_append.mp hs with h | h
    · exact hd s h
    · exact hP s h
  | cons t rest ih =>
    intro group sp decoded hg hd
    simp only [Tekkenizer.decodeAllGo]
    by_cases hts : decide (t < T.num_special_tokens) = sp
    · rw [if_pos hts]
      refine ih (group ++ [t]) sp decoded ?_ hd
      intro hsp id hid
      rcases List.mem_append.mp hid with h | h
      · exact hg hsp id h
      · rcases List.mem_singleton.mp h with rfl
        rw [hsp] at hts
        exact of_decide_eq_false hts
    · rw [if_neg hts]
      obtain ⟨segs, hsegs, hP⟩ := hflush group sp hg
      simp only [hsegs]
      refine ih [t] (decide (t < T.num_special_tokens)) (decoded ++ segs) ?_ ?_
      · intro hsp id hid
        rcases List.mem_singleton.mp hid with rfl
        exact of_decide_eq_false hsp
      · intro s hs
        rcases List.mem_append.mp hs with h | h
        · exact hd s h
        · exact hP s h

/-! ## C1: decode_all under the three policies -/

/-- **C1** (amended): *provided the engine's decode succeeds on every rank
sequence* (the external BPE decode can fail, e.g. on a lone byte-level rank
that is not valid UTF-8, and such a failure surfaces from `decode_all` under
every policy): `decode_all(ids, Raise)` fails exactly when some id is special,
and `decode_all(ids, Ignore)` never fails and each of its segments is the
engine's decoding of a run of non-special ids — the concatenation contains no
special-token text. -/
theorem decode_all_policy_spec (T : Tekkenizer)
    (e : List Nat → Except Unit (List Nat)) (ids : List Nat)
    (he : ∀ l, ∃ s, e l = .ok s) :
    ((T.decode_all e ids .raise).isOk = true
        ↔ ∀ id ∈ ids, ¬ id < T.num_special_tokens)
    ∧ (∃ ss, T.decode_all e ids .ignore = .ok ss
        ∧ ∀ s ∈ ss, ∃ run : List Nat, (∀ id ∈ run, ¬ id < T.num_special_tokens)
            ∧ e (run.map (fun x => x - T.num_special_tokens)) = .ok s) := by
  constructor
  · cases ids with
    | nil => simp [Tekkenizer.decode_all, Except.isOk, Except.toBool]
    | cons t rest =>
      simp only [Tekkenizer.decode_all]
      by_cases ht : t < T.num_special_tokens
      · rw [decide_eq_true ht, decodeAllGo_raise_special]
        refine iff_of_false (by simp [Except.isOk, Except.toBool]) ?_
        intro hall
        exact absurd ht (hall t (by simp))
      · rw [decide_eq_false ht]
        by_cases hrest : ∃ id ∈ rest, id < T.num_special_tokens
        · obtain ⟨err, herr⟩ := decodeAllGo_raise_err_of_mem T e rest [t] [] hrest
          rw [herr]
          refine iff_of_false (by simp [Except.isOk, Except.toBool]) ?_
          intro hall
          obtain ⟨id, hid, hlt⟩ := hrest
          exact absurd hlt (hall id (by simp [hid]))
        · have hrest' : ∀ id ∈ rest, ¬ id < T.num_special_tokens :=
            fun id hid hlt => hrest ⟨id, hid, hlt⟩
          rw [decodeAllGo_nonspecial T e .raise rest [t] [] hrest']
          obtain ⟨s, hs⟩ := he ((t - T.num_special_tokens)
            :: rest.map (fun x => x - T.num_special_tokens))
          refine iff_of_true ?_ ?_
          · simp [Tekkenizer.decode_group, hs, Except.map, Except.isOk, Except.toBool]
          · intro id hid
            rcases List.mem_cons.mp hid with rfl | h
            · exact ht
            · exact hrest' id h
  · cases ids with
    | nil => exact ⟨[], by simp [Tekkenizer.decode_all], by simp⟩
    | cons t rest =>
      simp only [Tekkenizer.decode_all]
      refine decodeAllGo_ignore_ok T e he rest [t]
        (decide (t < T.num_special_tokens)) [] ?_ (by simp)
      intro hsp id hid
      rcases List.mem_singleton.mp hid with rfl
      exact of_decide_eq_false hsp

/-- A fixed small tokenizer value used to instantiate the decode theorems
(`num_special_tokens = 2`, `vocab_size = 4`). -/
def Tw : Tekkenizer := ⟨[], 4, 2, .v7, [], [], [], none, none⟩

/-- Witness for `decode_all_policy_spec` with a total engine and the
non-special ids `[2, 3]`. -/
theorem decode_all_policy_spec_witness :
    ((Tw.decode_all (fun l => .ok l) [2, 3] .raise).isOk = true
        ↔ ∀ id ∈ [2, 3], ¬ id < Tw.num_special_tokens)
    ∧ (∃ ss, Tw.decode_all (fun l => .ok l) [2, 3] .ignore = .ok ss
        ∧ ∀ s ∈ ss, ∃ run : List Nat, (∀ id ∈ run, ¬ id < Tw.num_special_tokens)
            ∧ (fun l => Except.ok (ε := Unit) l)
                (run.map (fun x => x - Tw.num_special_tokens)) = .ok s) :=
  decode_all_policy_spec Tw (fun l => .ok l) [2, 3] (fun l => ⟨l, rfl⟩)

/-- The 129-token byte vocabulary used by the decode counterexamples:
ranks `0..128`, each with the single byte `[i]` (the byte-identity invariant). -/
def vocab129 : List TokenInfo := (List.range 129).map (fun i => ⟨i, [i], none⟩)

/-- The tokenizer built from `vocab129` with no special tokens. -/
def T129 : Tekkenizer :=
  (Tekkenizer.new id vocab129 [] 129 0 .v7 none).toOption.getD default

set_option maxRecDepth 100000 in
/-- **C1** (counterexample to the claim as stated).  In the tokenizer built from
the 129-byte vocabulary, the id sequence `[128]` contains no special id, yet
with the spec's engine model (bytes of the lone rank `128` are `0x80`, not valid
UTF-8) `decode_all([128], Ignore)` fails with an engine error — "Ignore never
fails" is false — and `decode_all([128], Raise)` also fails although no id is
special, so "Raise fails iff some id is special" is false as well. -/
theorem decode_all_ignore_can_fail_cex :
    Tekkenizer.new id vocab129 [] 129 0 .v7 none = .ok T129
    ∧ (∀ id ∈ [128], ¬ id < T129.num_special_tokens)
    ∧ T129.decode_all (specBpeDecode T129.mergeable_ranks) [128] .ignore
        = .error .tokenizers
    ∧ T129.decode_all (specBpeDecode T129.mergeable_ranks) [128] .raise
        = .error .tokenizers := by
  refine ⟨by decide, by decide, by decide, by decide⟩

/-! ## C2: encode/decode round trip -/

/-- **C2** (confirmed).  For every text `t`, when the external BPE engine
round-trips `t` (`decode (encode t) = t`) and encodes non-empty text to a
non-empty rank sequence, decoding `encode(t, add_bos := false,
add_eos := false)` with the Ignore policy returns exactly `t`: all encoded ids
are shifted into the non-special range, so they form one run that is decoded
back as a batch by the engine. -/
theorem encode_decode_round_trip (T : Tekkenizer)
    (bpe_encode : List Nat → List Nat)
    (bpe_decode : List Nat → Except Unit (List Nat)) (t : List Nat)
    (hrt : bpe_decode (bpe_encode t) = .ok t)
    (hne : bpe_encode t = [] → t = []) :
    (T.encode bpe_encode t false false).bind
      (fun ids => T.decode bpe_decode ids .ignore) = .ok t := by
  have henc : T.encode bpe_encode t false false
      = .ok ((bpe_encode t).map (fun r => r + T.num_special_tokens)) := by
    simp [Tekkenizer.encode]
  rw [henc]
  show T.decode bpe_decode ((bpe_encode t).map (fun r => r + T.num_special_tokens))
      .ignore = .ok t
  rcases hl : bpe_encode t with _ | ⟨r, rs⟩
  · have ht0 : t = [] := hne hl
    subst ht0
    simp [hl, Tekkenizer.decode, Tekkenizer.decode_all, Except.map]
  · rw [hl] at hrt
    simp only [List.map_cons]
    simp only [Tekkenizer.decode, Tekkenizer.decode_all]
    rw [decide_eq_false
      (by omega : ¬ r + T.num_special_tokens < T.num_special_tokens)]
    rw [decodeAllGo_nonspecial T bpe_decode .ignore _ _ _
      (by intro id hid
          obtain ⟨x, hx, hxe⟩ := List.mem_map.mp hid
          omega)]
    have hmap : (([r + T.num_special_tokens] ++
          rs.map (fun x => x + T.num_special_tokens)).map
            (fun x => x - T.num_special_tokens)) = r :: rs := by
      simp only [List.singleton_append, List.map_cons, List.map_map, Nat.add_sub_cancel]
      rw [show ((fun x => x - T.num_special_tokens) ∘ fun x => x + T.num_special_tokens)
          = fun x => x from funext fun x => by simp [Function.comp, Nat.add_sub_cancel]]
      rw [List.map_id']
    rw [Tekkenizer.decode_group]
    simp only [if_neg (by simp : ¬ (false = true))]
    rw [hmap, hrt]
    simp [Except.map]

/-- Witness for `encode_decode_round_trip` with the identity engine on `[5, 6]`. -/
theorem encode_decode_round_trip_witness :
    (Tw.encode (fun l => l) [5, 6] false false).bind
      (fun ids => Tw.decode (fun l => .ok l) ids .ignore) = .ok [5, 6] :=
  encode_decode_round_trip Tw (fun l => l) (fun l => .ok l) [5, 6] rfl (fun h => h)

/-! ## C7: id_to_piece vs decode -/

set_option maxRecDepth 100000 in
/-- **C7** (counterexample to the claim as stated).  `id_to_piece` does *not*
return an error exactly when `id ≥ vocab_size`: in the tokenizer built from the
129-byte vocabulary, id `128` is within bounds, yet `id_to_piece(128)` fails,
because `decode([128], Keep)` delegates the lone rank `128` (byte `0x80`) to
the engine, whose decode rejects it as invalid UTF-8. -/
theorem id_to_piece_error_below_bound_cex :
    Tekkenizer.new id vocab129 [] 129 0 .v7 none = .ok T129
    ∧ 128 < T129.vocab_size
    ∧ T129.id_to_piece (specBpeDecode T129.mergeable_ranks) 128
        = .error .tokenizers := by
  refine ⟨by decide, by decide, by decide⟩

/-- **C7** (amended): `id_to_piece(id)` returns the out-of-range configuration
error when `id ≥ vocab_size`, and otherwise returns *exactly* the result of
`decode([id], Keep)` — the same success value or the same failure (which can
itself be an error for an in-range id). -/
theorem id_to_piece_spec (T : Tekkenizer)
    (bpe_decode : List Nat → Except Unit (List Nat)) (token_id : Nat) :
    (T.vocab_size ≤ token_id →
      T.id_to_piece bpe_decode token_id = .error .invalidConfig)
    ∧ (token_id < T.vocab_size →
      T.id_to_piece bpe_decode token_id = T.decode bpe_decode [token_id] .keep) := by
  constructor
  · intro h
    rw [Tekkenizer.id_to_piece, if_pos h]
  · intro h
    rw [Tekkenizer.id_to_piece, if_neg (by omega)]

/-- Witness for `id_to_piece_spec` at the in-range id `1`. -/
theorem id_to_piece_spec_witness :
    Tw.id_to_piece (fun l => .ok l) 1 = Tw.decode (fun l => .ok l) [1] .keep :=
  (id_to_piece_spec Tw (fun l => .ok l) 1).2 (by decide)

end Tekken
